import Mathlib

/-!
Shallow embedding of the TF-IDF vector database `vcdb.py` (repository
LLMVCS, directory `vc-database`) together with proofs about its
specification.  Pure-Python string and list manipulation is embedded as
computable Lean functions; float arithmetic (math.log, math.sqrt,
division) is embedded over the reals.
-/

namespace VCDB

/-! Definitions: the embedding of vcdb.py. -/

/-- Whitespace characters stripped by Python str.strip and matched by the
regex whitespace class in the ASCII range. -/
def isPySpace (c : Char) : Bool :=
  c = ' ' || c = '\t' || c = '\n' || c = '\r' || c = '\x0b' || c = '\x0c'

/-- Python str.strip with no argument: drop leading and trailing whitespace. -/
def pyStrip (s : String) : String :=
  String.mk (((s.data.dropWhile (fun c => isPySpace c)).reverse.dropWhile
    (fun c => isPySpace c)).reverse)

/-- Word characters of the regex word class, ASCII range: alphanumerics and
underscore. -/
def isWordChar (c : Char) : Bool := c.isAlphanum || c = '_'

/-- Maximal runs of word characters in a character list; `cur` is the current
run being accumulated, in reverse. -/
def wordRuns : List Char → List Char → List (List Char)
  | [], cur => if cur.isEmpty then [] else [cur.reverse]
  | c :: cs, cur =>
    if isWordChar c then wordRuns cs (c :: cur)
    else if cur.isEmpty then wordRuns cs []
    else cur.reverse :: wordRuns cs []

/-- vcdb.tokenize: findall of maximal word-character runs over the lowercased
text.  Lowercasing maps ASCII upper-case letters, matching Python str.lower on
the ASCII inputs in scope. -/
def tokenize (text : String) : List String :=
  (wordRuns (text.data.map Char.toLower) []).map String.mk

/-- Python s.split on the bar character with maxsplit 1, component 0: the
prefix of the string before the first bar, or the whole string when there is
no bar. -/
def beforeBar (s : String) : String :=
  String.mk (s.data.takeWhile (fun c => c ≠ '|'))

/-- vcdb.parse_op_name: prefix before the first bar, stripped. -/
def parse_op_name (entry : String) : String := pyStrip (beforeBar entry)

/-- Case-insensitive match of a literal (given lowercase) at the head of a
character list, returning the remainder on success. -/
def matchLit : List Char → List Char → Option (List Char)
  | [], cs => some cs
  | _ :: _, [] => none
  | l :: ls, c :: cs => if c.toLower = l then matchLit ls cs else none

/-- One attempt, at the current position, of the regex used by
vcdb.parse_params: the literal word parameter, an optional s, a colon,
optional whitespace, then a nonempty capture of characters up to the next
period.  Returns the captured group.  Backtracking of the greedy whitespace
star means that when everything before the period is whitespace the capture
is the last whitespace character. -/
def paramMatchAt (cs : List Char) : Option (List Char) :=
  match matchLit ("parameter".data) cs with
  | none => none
  | some rest =>
    let afterColon : Option (List Char) :=
      match rest with
      | [] => none
      | [c1] => if c1 = ':' then some [] else none
      | c1 :: c2 :: r =>
        if c1.toLower = 's' && c2 = ':' then some r
        else if c1 = ':' then some (c2 :: r) else none
    match afterColon with
    | none => none
    | some r =>
      let body := r.takeWhile (fun c => c ≠ '.')
      if body.isEmpty then none
      else
        let ws := body.takeWhile (fun c => isPySpace c)
        some (body.drop (min ws.length (body.length - 1)))

/-- Left-to-right scan of re.search for the parameter-list regex. -/
def searchParamsGroup : List Char → Option (List Char)
  | [] => none
  | c :: cs =>
    match paramMatchAt (c :: cs) with
    | some g => some g
    | none => searchParamsGroup cs

/-- Python s.split on a single separator character: components between the
separator occurrences, empties kept. -/
def splitChar (sep : Char) : List Char → List (List Char)
  | [] => [[]]
  | c :: cs =>
    if c = sep then [] :: splitChar sep cs
    else
      match splitChar sep cs with
      | t :: ts => (c :: t) :: ts
      | [] => [[c]]

/-- Python s.split on the two-character separator of one blank line (double
newline): non-overlapping occurrences found left to right, empties kept. -/
def splitBlankLine : List Char → List (List Char)
  | [] => [[]]
  | '\n' :: '\n' :: cs => [] :: splitBlankLine cs
  | c :: cs =>
    match splitBlankLine cs with
    | t :: ts => (c :: t) :: ts
    | [] => [[c]]

/-- vcdb.parse_params: regex search for a Parameters clause, split the capture
on commas, strip each piece, drop empty pieces. -/
def parse_params (entry : String) : List String :=
  match searchParamsGroup entry.data with
  | none => []
  | some g =>
    (((splitChar ',' g).map (fun cs => pyStrip (String.mk cs)))).filter
      (fun p => p ≠ "")

/-- vcdb.make_signature: canonical signature string. -/
def make_signature (module_id : Option Nat) (opcode : Nat) (params : List String) :
    String :=
  let mid := match module_id with
    | none => "?"
    | some i => toString i
  if params ≠ [] then
    mid ++ "." ++ toString opcode ++ "(" ++ String.intercalate ", " params ++ ")"
  else
    mid ++ "." ++ toString opcode ++ "()"

/-- Entry splitting shared by vcdb.vectorize_file and vcdb.load_module_id_map:
split the text on double newlines, strip each piece, keep the nonempty ones. -/
def splitEntries (content : String) : List String :=
  ((splitBlankLine content.data).map (fun cs => pyStrip (String.mk cs))).filter
    (fun e => e ≠ "")

/-- Python dict assignment on an association list: replace the value at an
existing key in place, otherwise append the binding. -/
def dictInsert (m : List (String × Nat)) (k : String) (v : Nat) :
    List (String × Nat) :=
  if m.any (fun p => p.1 = k) then m.map (fun p => if p.1 = k then (k, v) else p)
  else m ++ [(k, v)]

/-- Python dict.get with no default on an association list. -/
def dictGet? (m : List (String × Nat)) (k : String) : Option Nat :=
  (m.find? (fun p => p.1 = k)).map (fun p => p.2)

/-- Loop body of vcdb.load_module_id_map: given the accumulated map and one
enumerated record, record the name (prefix before the first bar, stripped)
when it is nonempty. -/
def registerRecord (m : List (String × Nat)) (p : Nat × String) :
    List (String × Nat) :=
  let name := pyStrip (beforeBar p.2)
  if name = "" then m else dictInsert m name p.1

/-- vcdb.load_module_id_map applied to the manifest text: records split on
blank lines, stripped, empty records dropped; each surviving record is
numbered by enumerate, and contributes its name when that name is nonempty. -/
def load_module_id_map (content : String) : List (String × Nat) :=
  (splitEntries content).enum.foldl registerRecord []

/-- Enriched search result dictionary returned by vcdb.enrich_result. -/
structure SearchResult where
  entry : String
  opcode : Nat
  similarity : ℝ
  database : String
  kind : String
  module_name : String
  module_id : Option Nat
  op_name : String
  params : List String
  signature : String

/-- vcdb.enrich_result. -/
def enrich_result (entry : String) (opcode : Nat) (similarity : ℝ)
    (database : String) (module_map : List (String × Nat)) : SearchResult :=
  let op_name := parse_op_name entry
  let kind := if database = "vector-categories" then "category" else "op"
  let module_id := dictGet? module_map (if kind = "category" then op_name else database)
  let module_name := if kind = "category" then op_name else database
  let params := if kind = "category" then [] else parse_params entry
  let signature := if kind = "category" then "" else make_signature module_id opcode params
  ⟨entry, opcode, similarity, database, kind, module_name, module_id, op_name,
    params, signature⟩

/-- Insertion order of the distinct elements of a list, first occurrences
first: the key order of a Python dict built by repeated insertion, and the
element enumeration of a Python set built from the list. -/
def firstDedup : List String → List String
  | [] => []
  | x :: xs => x :: (firstDedup xs).filter (fun y => y ≠ x)

/-- TF-IDF index structure returned by vcdb.build_tfidf.  Sparse-vector keys
are the decimal strings of vocabulary positions, exactly as produced by
applying str to the dict word_idx. -/
structure TfidfData where
  vocab : List String
  idf : List (String × ℝ)
  vectors : List (List (String × ℝ))

/-- Document frequency of a token: number of docs containing it. -/
def dfCount (docs : List (List String)) (w : String) : Nat :=
  (docs.filter (fun d => w ∈ d)).length

/-- Inverse document frequency as computed by vcdb.build_tfidf: log of N over
df, and 0 when df is 0. -/
noncomputable def idfValue (docs : List (List String)) (w : String) : ℝ :=
  if dfCount docs w ≠ 0 then
    Real.log ((docs.length : ℝ) / (dfCount docs w : ℝ))
  else 0

/-- Lexicographic comparison of character lists by code point: the order
Python uses to compare strings. -/
def charListLe : List Char → List Char → Bool
  | [], _ => true
  | _ :: _, [] => false
  | a :: as, b :: bs => if a < b then true else if b < a then false else charListLe as bs

/-- Python string comparison, less-or-equal. -/
def pyStrLe (a b : String) : Bool := charListLe a.data b.data

/-- Vocabulary in vcdb.build_tfidf: the lexicographically sorted set of all
tokens of all documents. -/
def buildVocab (docs : List (List String)) : List String :=
  List.insertionSort (fun a b => pyStrLe a b = true) (firstDedup docs.flatten)

/-- Per-entry sparse vector in vcdb.build_tfidf: the empty map for an empty
document, else the decimal string of each token's vocabulary position mapped
to its tf-idf weight, tokens iterated in first-occurrence order as the Python
tf dict does. -/
noncomputable def buildDocVector (docs : List (List String)) (vocab : List String)
    (doc : List String) : List (String × ℝ) :=
  if doc = [] then []
  else (firstDedup doc).map (fun w =>
    (Nat.repr (vocab.indexOf w),
     ((doc.count w : ℝ) / (doc.length : ℝ)) * idfValue docs w))

/-- vcdb.build_tfidf. -/
noncomputable def build_tfidf (entries : List String) : TfidfData :=
  let docs := entries.map tokenize
  ⟨buildVocab docs,
   (buildVocab docs).map (fun w => (w, idfValue docs w)),
   docs.map (buildDocVector docs (buildVocab docs))⟩

/-- Python dict.get with default 0 on a sparse vector. -/
def vecGet (v : List (String × ℝ)) (k : String) : ℝ :=
  match v.find? (fun p => p.1 = k) with
  | some p => p.2
  | none => 0

/-- Local dot in vcdb.cosine_sim: products of looked-up weights summed over
the union of the two key sets. -/
noncomputable def dotProduct (v1 v2 : List (String × ℝ)) : ℝ :=
  ((firstDedup (v1.map Prod.fst ++ v2.map Prod.fst)).map
    (fun k => vecGet v1 k * vecGet v2 k)).sum

/-- Locals n1 and n2 in vcdb.cosine_sim: square root of the sum of squared
stored values, guarded to 0 for an empty vector. -/
noncomputable def vecNorm (v : List (String × ℝ)) : ℝ :=
  if v ≠ [] then Real.sqrt ((v.map (fun p => p.2 * p.2)).sum) else 0

/-- vcdb.cosine_sim between sparse vectors: dot over the key union divided by
the norm product, and 0 when either norm is zero (Python float truthiness of
n1 and n2). -/
noncomputable def cosine_sim (v1 v2 : List (String × ℝ)) : ℝ :=
  if vecNorm v1 ≠ 0 ∧ vecNorm v2 ≠ 0 then
    dotProduct v1 v2 / (vecNorm v1 * vecNorm v2)
  else 0

/-- Parsed .dat database document, with the fields vcdb._search consumes plus
the metadata written by vcdb.vectorize_file. -/
structure DatFile where
  vocab : List String
  idf : List (String × ℝ)
  vectors : List (List (String × ℝ))
  entries : List String
  source : String

/-- In-memory document assembled by vcdb.vectorize_file from an entry list and
the source file name, before json.dump. -/
noncomputable def mkDatFile (entries : List String) (sourceName : String) : DatFile :=
  let t := build_tfidf entries
  ⟨t.vocab, t.idf, t.vectors, entries, sourceName⟩

/-- Query vector construction in vcdb._search: count only query words present
in the vocabulary, normalize by the total query word count, and weight by the
database idf with default 0.  The dict word_idx is position-by-enumerate over
the stored vocabulary, which for duplicate-free vocabularies (all documents
written by vcdb.vectorize_file) is List.indexOf. -/
noncomputable def buildQueryVec (words : List String) (db : DatFile) :
    List (String × ℝ) :=
  let kept := words.filter (fun w => w ∈ db.vocab)
  (firstDedup kept).map (fun w =>
    (Nat.repr (db.vocab.indexOf w),
     ((kept.count w : ℝ) / (words.length : ℝ)) * vecGet db.idf w))

/-- Scoring, sorting and enrichment in vcdb._search on an already-loaded
document.  The Python list.sort with key minus-similarity is a stable sort;
insertionSort with this comparator has exactly that extensional behaviour.
Indexing db entries out of range raises in Python and cannot happen for the
aligned documents vcdb writes; it is embedded with a default. -/
noncomputable def searchDat (query : String) (databaseStem : String) (db : DatFile)
    (top_k : Nat) (module_map : List (String × Nat)) : List SearchResult :=
  let words := tokenize query
  if words = [] then []
  else
    let q_vec := buildQueryVec words db
    let scores := db.vectors.enum.map (fun p => (p.1, cosine_sim q_vec p.2))
    let sorted := List.insertionSort (fun a b => b.2 ≤ a.2) scores
    (sorted.take top_k).map (fun p =>
      enrich_result (db.entries.getD p.1 "") p.1 p.2 databaseStem module_map)

/-- Outcome of opening and json-parsing one index path in vcdb._search: the
file can be absent (open raises FileNotFoundError), unparseable (json.load
raises a decode error), or a parsed document. -/
inductive FileContent where
  | missing
  | corrupt
  | parsed (db : DatFile)

/-- Failures a search can surface to its caller. -/
inductive SearchError where
  | notFound
  | corruptIndex
deriving DecidableEq

/-- vcdb._search including the open and json.load steps, which run before any
scoring: a missing or unparseable index makes the call raise instead of
returning a result list. -/
noncomputable def searchIndex (query : String) (stem : String) (fc : FileContent)
    (top_k : Nat) (module_map : List (String × Nat)) :
    Except SearchError (List SearchResult) :=
  match fc with
  | .missing => .error .notFound
  | .corrupt => .error .corruptIndex
  | .parsed db => .ok (searchDat query stem db top_k module_map)

/-- Sequential fan-out loop of vcdb.search_all over the files found by glob;
an exception from any single search aborts the whole call. -/
noncomputable def searchAllGo (query : String) (top_k : Nat)
    (module_map : List (String × Nat)) :
    List (String × FileContent) → Except SearchError (List SearchResult)
  | [] => .ok []
  | f :: fs =>
    match searchIndex query f.1 f.2 top_k module_map with
    | .error e => .error e
    | .ok rs =>
      match searchAllGo query top_k module_map fs with
      | .error e => .error e
      | .ok rest => .ok (rs ++ rest)

/-- vcdb.search_all.  The build directory is modelled as the optional list of
dot-dat files glob finds together with their stems; a missing directory (or
one with no such files) makes glob yield nothing at all.  Collected results
are stable-sorted by descending similarity and truncated to top_k. -/
noncomputable def search_all (query : String)
    (buildDir : Option (List (String × FileContent))) (top_k : Nat)
    (module_map : List (String × Nat)) :
    Except SearchError (List SearchResult) :=
  match searchAllGo query top_k module_map (buildDir.getD []) with
  | .error e => .error e
  | .ok results =>
    .ok ((List.insertionSort
      (fun a b : SearchResult => b.similarity ≤ a.similarity) results).take top_k)

/-- Presence of a key in an association list. -/
def HasKey (m : List (String × Nat)) (k : String) : Prop := ∃ x ∈ m, x.1 = k

/-- Descending score order with ties broken by ascending original position. -/
def scoreLex (a b : Nat × ℝ) : Prop :=
  b.2 < a.2 ∨ (a.2 = b.2 ∧ a.1 < b.1)

/-- JSON values as written by json.dump and read back by json.load, with
numbers as reals. -/
inductive JVal where
  | str (s : String)
  | num (x : ℝ)
  | arr (xs : List JVal)
  | obj (fields : List (String × JVal))

/-- Document written by json.dump for the data dict assembled by
vcdb.vectorize_file, fields in dict insertion order. -/
noncomputable def dumpDat (d : DatFile) : JVal :=
  .obj [("vocab", .arr (d.vocab.map JVal.str)),
        ("idf", .obj (d.idf.map (fun p => (p.1, JVal.num p.2)))),
        ("vectors", .arr (d.vectors.map (fun v =>
          JVal.obj (v.map (fun p => (p.1, JVal.num p.2)))))),
        ("entries", .arr (d.entries.map JVal.str)),
        ("metadata", .obj [("source", .str d.source)])]

def JVal.asStr : JVal → Option String
  | .str s => some s
  | _ => none

def JVal.asNum : JVal → Option ℝ
  | .num x => some x
  | _ => none

def JVal.asArr : JVal → Option (List JVal)
  | .arr xs => some xs
  | _ => none

def JVal.asObj : JVal → Option (List (String × JVal))
  | .obj fs => some fs
  | _ => none

/-- Key lookup in a loaded JSON object. -/
def JVal.getField (j : JVal) (k : String) : Option JVal :=
  match j with
  | .obj fs => (fs.find? (fun p => p.1 = k)).map (fun p => p.2)
  | _ => none

def decodeStrList (j : JVal) : Option (List String) :=
  match j.asArr with
  | none => none
  | some xs => xs.mapM JVal.asStr

def decodeNumObj (j : JVal) : Option (List (String × ℝ)) :=
  match j.asObj with
  | none => none
  | some fs => fs.mapM (fun p => (JVal.asNum p.2).map (fun x => (p.1, x)))

/-- Parse of a loaded index document into the shape the searcher and the
round-trip comparison use: the required fields with their required types. -/
def loadDat (j : JVal) : Option DatFile := do
  let vocab ← decodeStrList (← j.getField "vocab")
  let idf ← decodeNumObj (← j.getField "idf")
  let vecsJ ← (← j.getField "vectors").asArr
  let vectors ← vecsJ.mapM decodeNumObj
  let entries ← decodeStrList (← j.getField "entries")
  let source ← (← (← j.getField "metadata").getField "source").asStr
  pure ⟨vocab, idf, vectors, entries, source⟩

/-- Concrete database document of the C5 scenario. -/
noncomputable def c5db : DatFile :=
  mkDatFile ["add | Adds two numbers. Parameters: a, b.",
    "print | Prints a value. Parameters: value."] "mymod.txt"

/-- Tokenized documents of the C5 scenario. -/
def c5docs : List (List String) :=
  ["add | Adds two numbers. Parameters: a, b.",
   "print | Prints a value. Parameters: value."].map tokenize

/-- Stored vector of the add entry in the C5 scenario. -/
noncomputable def c5v0 : List (String × ℝ) :=
  buildDocVector c5docs (buildVocab c5docs)
    (tokenize "add | Adds two numbers. Parameters: a, b.")

/-- Stored vector of the print entry in the C5 scenario. -/
noncomputable def c5v1 : List (String × ℝ) :=
  buildDocVector c5docs (buildVocab c5docs)
    (tokenize "print | Prints a value. Parameters: value.")

/-- Query vector of the C5 scenario. -/
noncomputable def c5qv : List (String × ℝ) :=
  buildQueryVec (tokenize "how to add numbers") c5db

/-! Lemmas and claim theorems. -/

lemma beforeBar_eq_self {s : String} (h : '|' ∉ s.data) : beforeBar s = s := by
  unfold beforeBar
  have hs : s.data.takeWhile (fun c => c ≠ '|') = s.data := by
    rw [List.takeWhile_eq_self_iff]
    intro x hx
    rw [decide_eq_true_eq]
    rintro rfl
    exact h hx
  rw [hs]

lemma enrich_result_op_name (e : String) (o : Nat) (s : ℝ) (d : String)
    (mm : List (String × Nat)) : (enrich_result e o s d mm).op_name = parse_op_name e :=
  rfl

/-- C10: for every entry text containing no bar character, the parsed
operation name is the whole entry with surrounding whitespace stripped, and
enrichment produces a result whose op_name is that stripped text. -/
theorem claim10_no_bar_op_name (entry : String) (h : '|' ∉ entry.data) :
    parse_op_name entry = pyStrip entry ∧
    ∀ (opcode : Nat) (s : ℝ) (database : String) (mm : List (String × Nat)),
      (enrich_result entry opcode s database mm).op_name = pyStrip entry := by
  have hop : parse_op_name entry = pyStrip entry := by
    unfold parse_op_name
    rw [beforeBar_eq_self h]
  exact ⟨hop, fun o s d mm => by rw [enrich_result_op_name, hop]⟩

/-- Witness for C10 at a concrete bar-free entry. -/
theorem claim10_witness :
    parse_op_name "  just a name  " = "just a name" ∧
    (enrich_result "  just a name  " 2 0 "db" []).op_name = "just a name" := by
  have h := claim10_no_bar_op_name "  just a name  " (by decide)
  have hstrip : pyStrip "  just a name  " = "just a name" := by decide
  exact ⟨h.1.trans hstrip, (h.2 2 0 "db" []).trans hstrip⟩

/-- C2, counterexample: in the manifest where the first record has an empty
name, the surviving record beta is assigned id 1 (its position among all
records), not id 0 (its position among non-skipped records) as the claim
states. -/
theorem claim2_counterexample :
    load_module_id_map "| x\n\nbeta | y\n" = [("beta", 1)] ∧
    dictGet? (load_module_id_map "| x\n\nbeta | y\n") "beta" ≠ some 0 := by
  constructor
  · decide
  · decide

lemma mem_dictInsert {m : List (String × Nat)} {k : String} {v : Nat}
    {p : String × Nat} (h : p ∈ dictInsert m k v) : p = (k, v) ∨ p ∈ m := by
  unfold dictInsert at h
  split at h
  · rcases List.mem_map.1 h with ⟨q, hq, hpq⟩
    by_cases hk : q.1 = k
    · rw [if_pos hk] at hpq
      exact Or.inl hpq.symm
    · rw [if_neg hk] at hpq
      exact Or.inr (hpq ▸ hq)
  · rcases List.mem_append.1 h with h | h
    · exact Or.inr h
    · simp only [List.mem_singleton] at h
      exact Or.inl h

lemma hasKey_dictInsert_self (m : List (String × Nat)) (k : String) (v : Nat) :
    HasKey (dictInsert m k v) k := by
  unfold dictInsert
  split
  · next h =>
    rcases List.any_eq_true.1 h with ⟨q, hq, hk⟩
    rw [decide_eq_true_eq] at hk
    exact ⟨(k, v), List.mem_map.2 ⟨q, hq, by rw [if_pos hk]⟩, rfl⟩
  · exact ⟨(k, v), List.mem_append.2 (Or.inr (by simp)), rfl⟩

lemma hasKey_dictInsert_of {m : List (String × Nat)} {k' : String}
    (h : HasKey m k') (k : String) (v : Nat) : HasKey (dictInsert m k v) k' := by
  rcases h with ⟨x, hx, hk⟩
  unfold dictInsert
  split
  · refine ⟨if x.1 = k then (k, v) else x, List.mem_map.2 ⟨x, hx, rfl⟩, ?_⟩
    by_cases hxk : x.1 = k
    · rw [if_pos hxk]
      exact hxk ▸ hk
    · rw [if_neg hxk]
      exact hk
  · exact ⟨x, List.mem_append.2 (Or.inl hx), hk⟩

lemma dictGet?_isSome_of_hasKey {m : List (String × Nat)} {k : String}
    (h : HasKey m k) : ∃ id, dictGet? m k = some id := by
  rcases h with ⟨x, hx, hk⟩
  have hfind : (m.find? (fun p => p.1 = k)).isSome = true :=
    List.find?_isSome.2 ⟨x, hx, by simp [hk]⟩
  rcases Option.isSome_iff_exists.1 hfind with ⟨q, hq⟩
  exact ⟨q.2, by rw [dictGet?, hq]; rfl⟩

lemma foldl_registerRecord_mem {P : String × Nat → Prop} :
    ∀ (l : List (Nat × String)) (m0 : List (String × Nat)),
      (∀ p ∈ m0, P p) →
      (∀ q ∈ l, pyStrip (beforeBar q.2) ≠ "" → P (pyStrip (beforeBar q.2), q.1)) →
      ∀ p ∈ l.foldl registerRecord m0, P p := by
  intro l
  induction l with
  | nil =>
    intro m0 hm _ p hp
    exact hm p hp
  | cons q l ih =>
    intro m0 hm hl p hp
    rw [List.foldl_cons] at hp
    refine ih _ ?_ ?_ p hp
    · intro r hr
      simp only [registerRecord] at hr
      split at hr
      · exact hm r hr
      · next hname =>
        rcases mem_dictInsert hr with rfl | hrm
        · exact hl q (List.mem_cons_self _ _) hname
        · exact hm r hrm
    · intro r hr h
      exact hl r (List.mem_cons_of_mem _ hr) h

lemma foldl_registerRecord_hasKey :
    ∀ (l : List (Nat × String)) (m0 : List (String × Nat)) (k : String),
      (HasKey m0 k ∨ ∃ q ∈ l, pyStrip (beforeBar q.2) = k ∧ k ≠ "") →
      HasKey (l.foldl registerRecord m0) k := by
  intro l
  induction l with
  | nil =>
    intro m0 k h
    rcases h with h | ⟨q, hq, _⟩
    · exact h
    · exact absurd hq (List.not_mem_nil q)
  | cons q l ih =>
    intro m0 k h
    rw [List.foldl_cons]
    rcases h with h | ⟨q', hq', hname, hk⟩
    · refine ih _ k (Or.inl ?_)
      by_cases hn : pyStrip (beforeBar q.2) = ""
      · simpa [registerRecord, hn] using h
      · simpa [registerRecord, hn] using hasKey_dictInsert_of h _ q.1
    · rcases List.mem_cons.1 hq' with rfl | hq'
      · refine ih _ k (Or.inl ?_)
        have hne : pyStrip (beforeBar q'.2) ≠ "" := hname ▸ hk
        simpa [registerRecord, hne] using hname ▸ hasKey_dictInsert_self m0 _ q'.1
      · exact ih _ k (Or.inr ⟨q', hq', hname, hk⟩)

/-- C2, amended: the registry skips records whose stripped name is empty, and
assigns each remaining name the zero-based position of its record among all
nonempty records in file order, so a skipped record still consumes an id and
the assigned ids need not be dense.  Every assigned pair points back at the
record in its id position, and every record with a nonempty name is
assigned. -/
theorem claim2_amended (content : String) :
    (∀ p ∈ load_module_id_map content,
        p.1 ≠ "" ∧ p.2 < (splitEntries content).length ∧
        parse_op_name ((splitEntries content).getD p.2 "") = p.1) ∧
    (∀ i, i < (splitEntries content).length →
        parse_op_name ((splitEntries content).getD i "") ≠ "" →
        ∃ id, dictGet? (load_module_id_map content)
          (parse_op_name ((splitEntries content).getD i "")) = some id) := by
  constructor
  · refine foldl_registerRecord_mem (splitEntries content).enum [] (by simp) ?_
    intro q hq hname
    have henum := List.mem_enum (x := q.2) (i := q.1) (by simpa using hq)
    refine ⟨hname, henum.1, ?_⟩
    rw [List.getD_eq_getElem?_getD, List.getElem?_eq_getElem henum.1, ← henum.2]
    rfl
  · intro i hi hname
    apply dictGet?_isSome_of_hasKey
    apply foldl_registerRecord_hasKey
    refine Or.inr ⟨(i, (splitEntries content)[i]), ?_, ?_, hname⟩
    · have hlen : i < (splitEntries content).enum.length := by
        rwa [List.enum_length]
      have hmem := List.getElem_mem hlen
      rwa [List.getElem_enum] at hmem
    · rw [List.getD_eq_getElem?_getD, List.getElem?_eq_getElem hi]
      rfl

/-- Witness for C2 amended at a concrete two-record manifest. -/
theorem claim2_amended_witness :
    parse_op_name ((splitEntries "alpha | x\n\nbeta | y\n").getD 0 "") = "alpha" ∧
    (∃ id, dictGet? (load_module_id_map "alpha | x\n\nbeta | y\n") "beta" = some id) := by
  have h := claim2_amended "alpha | x\n\nbeta | y\n"
  constructor
  · exact (h.1 ("alpha", 0) (by decide)).2.2
  · have h2 := h.2 1 (by decide) (by decide)
    rwa [show parse_op_name ((splitEntries "alpha | x\n\nbeta | y\n").getD 1 "") =
      "beta" by decide] at h2

/-- C1: contrary to the claim that only non-zero-weight tokens are stored,
build_tfidf keeps zero-weight tokens.  For the single-entry corpus of the
entry a, the token a has document frequency 1 of 1, so idf is log 1 = 0, and
its zero weight is nevertheless stored under vocabulary key 0. -/
theorem claim1_zero_weight_stored :
    (build_tfidf ["a"]).vectors = [[("0", (0 : ℝ))]] := by
  have htok : tokenize "a" = ["a"] := by decide
  have hidx : List.indexOf "a" ["a"] = 0 := by decide
  simp only [build_tfidf, htok, List.map_cons, List.map_nil, List.flatten]
  norm_num [buildDocVector, buildVocab, firstDedup, List.insertionSort,
    List.orderedInsert, hidx, dfCount, idfValue, Real.log_one,
    show Nat.repr 0 = "0" from rfl]

/-- C3, counterexample: searching a missing index location through search_all
returns the empty result list with no reported failure, because glob over a
missing directory yields no files at all. -/
theorem claim3_counterexample :
    search_all "add" none 1 [] = Except.ok [] := rfl

lemma searchAllGo_error (q : String) (k : Nat) (mm : List (String × Nat)) :
    ∀ (files : List (String × FileContent)),
      (∃ f ∈ files, ∀ db, f.2 ≠ FileContent.parsed db) →
      ∃ e, searchAllGo q k mm files = Except.error e := by
  intro files
  induction files with
  | nil =>
    rintro ⟨f, hf, _⟩
    exact absurd hf (List.not_mem_nil f)
  | cons f fs ih =>
    rintro ⟨g, hg, hbad⟩
    rcases List.mem_cons.1 hg with rfl | hg
    · obtain ⟨name, fc⟩ := g
      cases fc with
      | missing => exact ⟨.notFound, rfl⟩
      | corrupt => exact ⟨.corruptIndex, rfl⟩
      | parsed db => exact absurd rfl (hbad db)
    · rcases ih ⟨g, hg, hbad⟩ with ⟨e, he⟩
      obtain ⟨name, fc⟩ := f
      cases fc with
      | missing => exact ⟨.notFound, rfl⟩
      | corrupt => exact ⟨.corruptIndex, rfl⟩
      | parsed db => exact ⟨e, by simp [searchAllGo, searchIndex, he]⟩

/-- C3, amended: search surfaces a missing or unparseable index file to the
caller as an error, and search_all surfaces an unparseable index file found in
the directory as an error; but search_all over a missing index location (where
glob finds nothing) returns the empty result list with no error, so only the
single-file search distinguishes a missing location from no match. -/
theorem claim3_amended :
    (∀ (q stem : String) (k : Nat) (mm : List (String × Nat)),
        searchIndex q stem FileContent.missing k mm =
          Except.error SearchError.notFound ∧
        searchIndex q stem FileContent.corrupt k mm =
          Except.error SearchError.corruptIndex) ∧
    (∀ (q : String) (k : Nat) (mm : List (String × Nat))
        (files : List (String × FileContent)),
        (∃ f ∈ files, ∀ db, f.2 ≠ FileContent.parsed db) →
        ∃ e, search_all q (some files) k mm = Except.error e) ∧
    (∀ (q : String) (k : Nat) (mm : List (String × Nat)),
        search_all q none k mm = Except.ok []) := by
  refine ⟨fun q stem k mm => ⟨rfl, rfl⟩, ?_,
    fun q k mm => by simp [search_all, searchAllGo]⟩
  intro q k mm files hbad
  rcases searchAllGo_error q k mm files hbad with ⟨e, he⟩
  exact ⟨e, by simp [search_all, he]⟩

/-- Witness for C3 amended at concrete inputs: a missing single index raises
not-found, a directory holding one corrupt file raises an error, and a missing
directory yields the empty result list. -/
theorem claim3_amended_witness :
    searchIndex "q" "db" FileContent.missing 1 [] =
      Except.error SearchError.notFound ∧
    (∃ e, search_all "q" (some [("bad", FileContent.corrupt)]) 1 [] =
      Except.error e) ∧
    search_all "q" none 1 [] = Except.ok [] :=
  ⟨(claim3_amended.1 "q" "db" 1 []).1,
   claim3_amended.2.1 "q" 1 [] [("bad", FileContent.corrupt)]
     ⟨("bad", FileContent.corrupt), by simp, fun db => by simp⟩,
   claim3_amended.2.2 "q" 1 []⟩

lemma mem_firstDedup {l : List String} {x : String} : x ∈ firstDedup l ↔ x ∈ l := by
  induction l with
  | nil => simp [firstDedup]
  | cons a l ih =>
    simp only [firstDedup, List.mem_cons, List.mem_filter]
    constructor
    · rintro (rfl | ⟨hx, _⟩)
      · exact Or.inl rfl
      · exact Or.inr (ih.1 hx)
    · rintro (rfl | hx)
      · exact Or.inl rfl
      · by_cases hax : x = a
        · exact Or.inl hax
        · exact Or.inr ⟨ih.2 hx, by simp [hax]⟩

/-- C7: for every non-empty list of entry strings, build_tfidf yields one
sparse vector per entry, and every sparse-vector key is the decimal form of a
valid index into the vocabulary. -/
theorem claim7_shape (entries : List String) (h : entries ≠ []) :
    (build_tfidf entries).vectors.length = entries.length ∧
    ∀ v ∈ (build_tfidf entries).vectors, ∀ p ∈ v,
      ∃ i, i < (build_tfidf entries).vocab.length ∧ p.1 = Nat.repr i := by
  constructor
  · simp [build_tfidf]
  · intro v hv p hp
    simp only [build_tfidf] at hv ⊢
    rcases List.mem_map.1 hv with ⟨doc, hdoc, rfl⟩
    unfold buildDocVector at hp
    by_cases hd : doc = []
    · rw [if_pos hd] at hp
      exact absurd hp (List.not_mem_nil p)
    · rw [if_neg hd] at hp
      rcases List.mem_map.1 hp with ⟨w, hw, rfl⟩
      refine ⟨_, ?_, rfl⟩
      unfold buildVocab
      rw [List.indexOf_lt_length, List.mem_insertionSort, mem_firstDedup]
      exact List.mem_flatten.2 ⟨doc, hdoc, mem_firstDedup.1 hw⟩

/-- Witness for C7 at a concrete two-entry corpus. -/
theorem claim7_witness :
    (["a b", "b"] : List String) ≠ [] ∧
    ((build_tfidf ["a b", "b"]).vectors.length = (["a b", "b"] : List String).length ∧
      ∀ v ∈ (build_tfidf ["a b", "b"]).vectors, ∀ p ∈ v,
        ∃ i, i < (build_tfidf ["a b", "b"]).vocab.length ∧ p.1 = Nat.repr i) :=
  ⟨by decide, claim7_shape ["a b", "b"] (by decide)⟩

lemma idfValue_single (d : List String) (w : String) : idfValue [d] w = 0 := by
  unfold idfValue dfCount
  by_cases hw : w ∈ d
  · simp [List.filter, hw, Real.log_one]
  · simp [List.filter, hw]

lemma vecNorm_nonneg (v : List (String × ℝ)) : 0 ≤ vecNorm v := by
  unfold vecNorm
  split
  · exact Real.sqrt_nonneg _
  · exact le_refl 0

lemma vecNorm_eq_zero_of_sum_zero {v : List (String × ℝ)}
    (h : (v.map (fun p => p.2 * p.2)).sum = 0) : vecNorm v = 0 := by
  unfold vecNorm
  rw [h, Real.sqrt_zero, ite_self]

lemma vecNorm_nil : vecNorm ([] : List (String × ℝ)) = 0 := by
  unfold vecNorm
  simp

lemma cosine_sim_right_zero (q v : List (String × ℝ)) (hv : ∀ p ∈ v, p.2 = 0) :
    cosine_sim q v = 0 := by
  have hn : vecNorm v = 0 := by
    apply vecNorm_eq_zero_of_sum_zero
    apply List.sum_eq_zero
    intro x hx
    rcases List.mem_map.1 hx with ⟨p, hp, rfl⟩
    rw [hv p hp, mul_zero]
  unfold cosine_sim
  rw [if_neg (fun hc => hc.2 hn)]

lemma build_tfidf_single_vector_zero (e : String) :
    ∀ v ∈ (build_tfidf [e]).vectors, ∀ p ∈ v, p.2 = 0 := by
  intro v hv p hp
  simp only [build_tfidf] at hv
  rcases List.mem_map.1 hv with ⟨doc, hdoc, rfl⟩
  unfold buildDocVector at hp
  by_cases hd : doc = []
  · rw [if_pos hd] at hp
    exact absurd hp (List.not_mem_nil p)
  · rw [if_neg hd] at hp
    rcases List.mem_map.1 hp with ⟨w, hw, rfl⟩
    have hdoc1 : doc = tokenize e := by
      simpa using hdoc
    simp only [List.map_cons, List.map_nil, hdoc1, idfValue_single, mul_zero]

/-- C9: in a single-entry corpus every token occurs in the one document, so
every idf value is log 1 = 0, every stored weight is 0, the entry vector has
zero magnitude, and every query scored through search against the one-entry
database gets similarity exactly 0. -/
theorem claim9_single_entry_zero (e : String) :
    List.Forall (fun p => p.2 = 0) (build_tfidf [e]).idf ∧
    List.Forall (fun v => List.Forall (fun p => p.2 = 0) v) (build_tfidf [e]).vectors ∧
    ∀ (source query stem : String) (k : Nat) (mm : List (String × Nat)),
      List.Forall (fun r => r.similarity = 0)
        (searchDat query stem (mkDatFile [e] source) k mm) := by
  refine ⟨List.forall_iff_forall_mem.2 ?_, ?_, ?_⟩
  · intro p hp
    simp only [build_tfidf] at hp
    rcases List.mem_map.1 hp with ⟨w, _, rfl⟩
    simpa using idfValue_single (tokenize e) w
  · rw [List.forall_iff_forall_mem]
    intro v hv
    rw [List.forall_iff_forall_mem]
    exact build_tfidf_single_vector_zero e v hv
  · intro source query stem k mm
    rw [List.forall_iff_forall_mem]
    intro r hr
    unfold searchDat at hr
    by_cases hw : tokenize query = []
    · rw [if_pos hw] at hr
      exact absurd hr (List.not_mem_nil r)
    · rw [if_neg hw] at hr
      rcases List.mem_map.1 hr with ⟨p, hp, rfl⟩
      have hp' := List.mem_insertionSort _ |>.1 (List.mem_of_mem_take hp)
      rcases List.mem_map.1 hp' with ⟨q, hq, rfl⟩
      have hqmem := List.mem_enum hq
      show cosine_sim _ _ = 0
      apply cosine_sim_right_zero
      apply build_tfidf_single_vector_zero e
      rw [hqmem.2]
      exact List.getElem_mem hqmem.1

/-- Witness for C9 at the empty-entry corpus and a concrete query. -/
theorem claim9_witness :
    List.Forall (fun v => List.Forall (fun p : String × ℝ => p.2 = 0) v)
      (build_tfidf [""]).vectors ∧
    List.Forall (fun r : SearchResult => r.similarity = 0)
      (searchDat "x" "s" (mkDatFile [""] "s.txt") 1 []) :=
  ⟨(claim9_single_entry_zero "").2.1,
   (claim9_single_entry_zero "").2.2 "s.txt" "x" "s" 1 []⟩

lemma vecGet_cons (a : String) (x : ℝ) (v : List (String × ℝ)) (k : String) :
    vecGet ((a, x) :: v) k = if a = k then x else vecGet v k := by
  unfold vecGet
  rw [List.find?_cons]
  by_cases h : a = k
  · simp [h]
  · simp [h]

lemma vecGet_eq_zero_of_not_mem {v : List (String × ℝ)} {k : String}
    (h : k ∉ v.map Prod.fst) : vecGet v k = 0 := by
  unfold vecGet
  have hnone : v.find? (fun p => p.1 = k) = none := by
    rw [List.find?_eq_none]
    intro p hp hk
    rw [decide_eq_true_eq] at hk
    exact h (List.mem_map.2 ⟨p, hp, hk⟩)
  rw [hnone]

lemma vecGet_nonneg {v : List (String × ℝ)} (h : ∀ p ∈ v, 0 ≤ p.2) (k : String) :
    0 ≤ vecGet v k := by
  unfold vecGet
  cases hf : v.find? (fun p => p.1 = k) with
  | none => exact le_refl 0
  | some p => exact h p (List.mem_of_find?_eq_some hf)

lemma firstDedup_nodup (l : List String) : (firstDedup l).Nodup := by
  induction l with
  | nil => exact List.nodup_nil
  | cons a l ih =>
    refine List.Nodup.cons ?_ (List.Nodup.filter _ ih)
    intro ha
    rcases List.mem_filter.1 ha with ⟨_, hne⟩
    simp at hne

/-- Summing the squared looked-up weights over any key set covering a
duplicate-key-free sparse vector gives the sum of its squared stored
values. -/
lemma sum_vecGet_sq (v : List (String × ℝ)) (hv : (v.map Prod.fst).Nodup)
    (s : Finset String) (hsub : ∀ p ∈ v, p.1 ∈ s) :
    ∑ k ∈ s, vecGet v k * vecGet v k = (v.map (fun p => p.2 * p.2)).sum := by
  induction v with
  | nil => simp [vecGet]
  | cons a v ih =>
    obtain ⟨k0, x⟩ := a
    simp only [List.map_cons, List.nodup_cons] at hv
    have hk0s : k0 ∈ s := hsub (k0, x) (List.mem_cons_self _ _)
    have hrw : ∀ k ∈ s.erase k0,
        vecGet ((k0, x) :: v) k * vecGet ((k0, x) :: v) k =
          vecGet v k * vecGet v k := by
      intro k hk
      have hne : k0 ≠ k := fun h => (Finset.ne_of_mem_erase hk) h.symm
      rw [vecGet_cons, if_neg hne]
    rw [← Finset.add_sum_erase s _ hk0s, Finset.sum_congr rfl hrw,
      vecGet_cons, if_pos rfl,
      Finset.sum_erase s (by rw [vecGet_eq_zero_of_not_mem hv.1, mul_zero]),
      ih hv.2 (fun p hp => hsub p (List.mem_cons_of_mem _ hp))]
    simp

/-- Cauchy-Schwarz for the dot product computed by cosine_sim: the dot over
the key union is at most the product of the stored-value norms, for
duplicate-key-free vectors. -/
lemma dot_le_norms (v1 v2 : List (String × ℝ))
    (h1 : (v1.map Prod.fst).Nodup) (h2 : (v2.map Prod.fst).Nodup) :
    dotProduct v1 v2 ≤
    Real.sqrt ((v1.map (fun p => p.2 * p.2)).sum) *
      Real.sqrt ((v2.map (fun p => p.2 * p.2)).sum) := by
  unfold dotProduct
  set K := firstDedup (v1.map Prod.fst ++ v2.map Prod.fst) with hK
  have hKnd : K.Nodup := firstDedup_nodup _
  have hsum : (K.map (fun k => vecGet v1 k * vecGet v2 k)).sum =
      ∑ k ∈ K.toFinset, vecGet v1 k * vecGet v2 k :=
    (List.sum_toFinset _ hKnd).symm
  have hcover1 : ∀ p ∈ v1, p.1 ∈ K.toFinset := by
    intro p hp
    rw [List.mem_toFinset, hK, mem_firstDedup]
    exact List.mem_append.2 (Or.inl (List.mem_map.2 ⟨p, hp, rfl⟩))
  have hcover2 : ∀ p ∈ v2, p.1 ∈ K.toFinset := by
    intro p hp
    rw [List.mem_toFinset, hK, mem_firstDedup]
    exact List.mem_append.2 (Or.inr (List.mem_map.2 ⟨p, hp, rfl⟩))
  have hA := sum_vecGet_sq v1 h1 K.toFinset hcover1
  have hB := sum_vecGet_sq v2 h2 K.toFinset hcover2
  have hcs := Finset.sum_mul_sq_le_sq_mul_sq K.toFinset
    (fun k => vecGet v1 k) (fun k => vecGet v2 k)
  simp only [pow_two] at hcs
  rw [hA, hB] at hcs
  rw [hsum]
  set D := ∑ k ∈ K.toFinset, vecGet v1 k * vecGet v2 k with hD
  have hDabs : D ≤ Real.sqrt (D * D) := by
    rcases le_or_lt 0 D with h | h
    · rw [Real.sqrt_mul_self h]
    · exact le_trans h.le (Real.sqrt_nonneg _)
  refine hDabs.trans ?_
  have hmono := Real.sqrt_le_sqrt hcs
  refine hmono.trans ?_
  have hA0 : 0 ≤ (v1.map (fun p => p.2 * p.2)).sum := by
    apply List.sum_nonneg
    intro x hx
    rcases List.mem_map.1 hx with ⟨p, _, rfl⟩
    exact mul_self_nonneg _
  rw [Real.sqrt_mul hA0]

lemma cosine_sim_nonneg (v1 v2 : List (String × ℝ))
    (h1 : ∀ p ∈ v1, 0 ≤ p.2) (h2 : ∀ p ∈ v2, 0 ≤ p.2) :
    0 ≤ cosine_sim v1 v2 := by
  unfold cosine_sim
  split
  · apply div_nonneg
    · unfold dotProduct
      apply List.sum_nonneg
      intro x hx
      rcases List.mem_map.1 hx with ⟨k, _, rfl⟩
      exact mul_nonneg (vecGet_nonneg h1 k) (vecGet_nonneg h2 k)
    · exact mul_nonneg (vecNorm_nonneg v1) (vecNorm_nonneg v2)
  · exact le_refl 0

lemma cosine_sim_le_one (v1 v2 : List (String × ℝ))
    (h1 : (v1.map Prod.fst).Nodup) (h2 : (v2.map Prod.fst).Nodup) :
    cosine_sim v1 v2 ≤ 1 := by
  unfold cosine_sim
  split
  · next hcond =>
    obtain ⟨hn1, hn2⟩ := hcond
    have hp1 : 0 < vecNorm v1 := (vecNorm_nonneg v1).lt_of_ne (Ne.symm hn1)
    have hp2 : 0 < vecNorm v2 := (vecNorm_nonneg v2).lt_of_ne (Ne.symm hn2)
    rw [div_le_one (mul_pos hp1 hp2)]
    have hv1 : v1 ≠ [] := by
      rintro rfl
      exact hn1 vecNorm_nil
    have hv2 : v2 ≠ [] := by
      rintro rfl
      exact hn2 vecNorm_nil
    have hle := dot_le_norms v1 v2 h1 h2
    rwa [show Real.sqrt ((v1.map (fun p => p.2 * p.2)).sum) = vecNorm v1 by
        unfold vecNorm; rw [if_pos hv1],
      show Real.sqrt ((v2.map (fun p => p.2 * p.2)).sum) = vecNorm v2 by
        unfold vecNorm; rw [if_pos hv2]] at hle
  · exact zero_le_one

lemma cosine_sim_zero_of_degenerate (v1 v2 : List (String × ℝ))
    (h : v1 = [] ∨ (v1.map (fun p => p.2 * p.2)).sum = 0 ∨ v2 = [] ∨
      (v2.map (fun p => p.2 * p.2)).sum = 0) :
    cosine_sim v1 v2 = 0 := by
  have h0 : vecNorm v1 = 0 ∨ vecNorm v2 = 0 := by
    rcases h with h | h | h | h
    · exact Or.inl (by rw [h]; exact vecNorm_nil)
    · exact Or.inl (vecNorm_eq_zero_of_sum_zero h)
    · exact Or.inr (by rw [h]; exact vecNorm_nil)
    · exact Or.inr (vecNorm_eq_zero_of_sum_zero h)
  unfold cosine_sim
  rcases h0 with h0 | h0
  · rw [if_neg (fun hc => hc.1 h0)]
  · rw [if_neg (fun hc => hc.2 h0)]

/-- C8: for sparse vectors with duplicate-free keys (as Python dicts are) and
non-negative weights, cosine_sim lies in the closed unit interval, and it is
exactly 0 whenever either vector is empty or has zero magnitude. -/
theorem claim8_cosine_bounds (v1 v2 : List (String × ℝ))
    (hnod1 : (v1.map Prod.fst).Nodup) (hnod2 : (v2.map Prod.fst).Nodup)
    (h1 : ∀ p ∈ v1, 0 ≤ p.2) (h2 : ∀ p ∈ v2, 0 ≤ p.2) :
    0 ≤ cosine_sim v1 v2 ∧ cosine_sim v1 v2 ≤ 1 ∧
    ((v1 = [] ∨ (v1.map (fun p => p.2 * p.2)).sum = 0 ∨ v2 = [] ∨
      (v2.map (fun p => p.2 * p.2)).sum = 0) → cosine_sim v1 v2 = 0) :=
  ⟨cosine_sim_nonneg v1 v2 h1 h2, cosine_sim_le_one v1 v2 hnod1 hnod2,
   cosine_sim_zero_of_degenerate v1 v2⟩

/-- Witness for C8 at concrete non-negative sparse vectors. -/
theorem claim8_witness :
    0 ≤ cosine_sim [("0", 1), ("1", 2)] [("0", 3)] ∧
    cosine_sim [("0", 1), ("1", 2)] [("0", 3)] ≤ 1 ∧
    (([("0", (1 : ℝ)), ("1", 2)] = [] ∨
      (([("0", (1 : ℝ)), ("1", 2)].map (fun p => p.2 * p.2)).sum = 0) ∨
      [("0", (3 : ℝ))] = [] ∨
      (([("0", (3 : ℝ))].map (fun p => p.2 * p.2)).sum = 0)) →
      cosine_sim [("0", 1), ("1", 2)] [("0", 3)] = 0) :=
  claim8_cosine_bounds [("0", 1), ("1", 2)] [("0", 3)]
    (by decide) (by decide)
    (by
      intro p hp
      rcases List.mem_cons.1 hp with rfl | hp
      · norm_num
      · rcases List.mem_cons.1 hp with rfl | hp
        · norm_num
        · exact absurd hp (List.not_mem_nil p))
    (by
      intro p hp
      rcases List.mem_cons.1 hp with rfl | hp
      · norm_num
      · exact absurd hp (List.not_mem_nil p))

lemma orderedInsert_scoreLex (a : Nat × ℝ) :
    ∀ (l : List (Nat × ℝ)), List.Pairwise scoreLex l →
      (∀ b ∈ l, a.1 < b.1) →
      List.Pairwise scoreLex
        (List.orderedInsert (fun x y : Nat × ℝ => y.2 ≤ x.2) a l) := by
  intro l
  induction l with
  | nil =>
    intro _ _
    simp [List.orderedInsert]
  | cons b t ih =>
    intro hp ha
    simp only [List.orderedInsert]
    split
    · next hr =>
      refine List.pairwise_cons.2 ⟨?_, hp⟩
      intro x hx
      rcases List.mem_cons.1 hx with rfl | hx
      · rcases lt_or_eq_of_le hr with h | h
        · exact Or.inl h
        · exact Or.inr ⟨h.symm, ha x (List.mem_cons_self _ _)⟩
      · have hbx := (List.pairwise_cons.1 hp).1 x hx
        have hx2 : x.2 ≤ a.2 := by
          rcases hbx with h | h
          · exact le_trans h.le hr
          · exact h.1 ▸ hr
        rcases lt_or_eq_of_le hx2 with h | h
        · exact Or.inl h
        · exact Or.inr ⟨h.symm, ha x (List.mem_cons_of_mem _ hx)⟩
    · next hr =>
      have hab : a.2 < b.2 := lt_of_not_le hr
      refine List.pairwise_cons.2 ⟨?_, ?_⟩
      · intro x hx
        rcases (List.mem_orderedInsert _).1 hx with rfl | hx
        · exact Or.inl hab
        · exact (List.pairwise_cons.1 hp).1 x hx
      · exact ih (List.pairwise_cons.1 hp).2
          (fun c hc => ha c (List.mem_cons_of_mem _ hc))

lemma insertionSort_scoreLex :
    ∀ (l : List (Nat × ℝ)), List.Pairwise (fun a b => a.1 < b.1) l →
      List.Pairwise scoreLex
        (List.insertionSort (fun x y : Nat × ℝ => y.2 ≤ x.2) l) := by
  intro l
  induction l with
  | nil =>
    intro _
    simp [List.insertionSort]
  | cons a l ih =>
    intro hp
    simp only [List.insertionSort]
    apply orderedInsert_scoreLex
    · exact ih (List.pairwise_cons.1 hp).2
    · intro b hb
      exact (List.pairwise_cons.1 hp).1 b ((List.mem_insertionSort _).1 hb)

lemma pairwise_fst_lt_enum {α : Type} (l : List α) :
    List.Pairwise (fun a b : Nat × α => a.1 < b.1) l.enum := by
  rw [List.pairwise_iff_getElem]
  intro i j hi hj hij
  rw [List.getElem_enum, List.getElem_enum]
  simpa using hij

/-- C4: for every well-formed loaded index, non-empty query and top_k of at
least 1, search returns the scored entries sorted by strictly descending
similarity with ties broken by ascending original entry position, truncated
to the minimum of top_k and the entry count. -/
theorem claim4_sorted_truncated (query stem : String) (db : DatFile)
    (top_k : Nat) (mm : List (String × Nat))
    (hq : tokenize query ≠ []) (hk : 1 ≤ top_k)
    (hwf : db.entries.length = db.vectors.length) :
    (searchDat query stem db top_k mm).length = min top_k db.entries.length ∧
    List.Pairwise (fun a b : SearchResult =>
      b.similarity < a.similarity ∨
        (a.similarity = b.similarity ∧ a.opcode < b.opcode))
      (searchDat query stem db top_k mm) := by
  unfold searchDat
  rw [if_neg hq]
  constructor
  · rw [List.length_map, List.length_take, List.length_insertionSort,
      List.length_map, List.enum_length, hwf]
  · have hscores : List.Pairwise (fun a b : Nat × ℝ => a.1 < b.1)
        (db.vectors.enum.map (fun p =>
          (p.1, cosine_sim (buildQueryVec (tokenize query) db) p.2))) :=
      List.pairwise_map.2 (pairwise_fst_lt_enum db.vectors)
    have hsorted := insertionSort_scoreLex _ hscores
    have htake := List.Pairwise.sublist (List.take_sublist top_k _) hsorted
    exact List.pairwise_map.2 htake

/-- Witness for C4 at a concrete one-entry index. -/
theorem claim4_witness :
    tokenize "a" ≠ [] ∧ 1 ≤ 1 ∧
    (⟨["a"], [("a", 1)], [[("0", 1)]], ["a | x"], "s"⟩ : DatFile).entries.length =
      (⟨["a"], [("a", 1)], [[("0", 1)]], ["a | x"], "s"⟩ : DatFile).vectors.length ∧
    ((searchDat "a" "s" ⟨["a"], [("a", 1)], [[("0", 1)]], ["a | x"], "s"⟩ 1 []).length =
        min 1 ((⟨["a"], [("a", 1)], [[("0", 1)]], ["a | x"], "s"⟩ : DatFile).entries.length) ∧
      List.Pairwise (fun a b : SearchResult =>
        b.similarity < a.similarity ∨
          (a.similarity = b.similarity ∧ a.opcode < b.opcode))
        (searchDat "a" "s" ⟨["a"], [("a", 1)], [[("0", 1)]], ["a | x"], "s"⟩ 1 [])) :=
  ⟨by decide, le_refl 1, rfl,
   claim4_sorted_truncated "a" "s" _ 1 [] (by decide) (le_refl 1) rfl⟩

lemma mapM_asStr (l : List String) :
    (l.map JVal.str).mapM JVal.asStr = some l := by
  induction l with
  | nil => rfl
  | cons a l ih =>
    rw [List.map_cons, List.mapM_cons, ih]
    rfl

lemma mapM_asNum (l : List (String × ℝ)) :
    (l.map (fun p => (p.1, JVal.num p.2))).mapM
      (fun p => (JVal.asNum p.2).map (fun x => (p.1, x))) = some l := by
  induction l with
  | nil => rfl
  | cons a l ih =>
    rw [List.map_cons, List.mapM_cons, ih]
    rfl

lemma decodeNumObj_roundtrip (v : List (String × ℝ)) :
    decodeNumObj (JVal.obj (v.map (fun p => (p.1, JVal.num p.2)))) = some v := by
  unfold decodeNumObj
  exact mapM_asNum v

lemma mapM_decodeNumObj (vs : List (List (String × ℝ))) :
    (vs.map (fun v => JVal.obj (v.map (fun p => (p.1, JVal.num p.2))))).mapM
      decodeNumObj = some vs := by
  induction vs with
  | nil => rfl
  | cons v vs ih =>
    rw [List.map_cons, List.mapM_cons, ih, decodeNumObj_roundtrip]
    rfl

lemma mapM_loop_asStr (l : List String) :
    List.mapM.loop JVal.asStr (l.map JVal.str) [] = some l :=
  mapM_asStr l

lemma mapM_loop_decodeNumObj (vs : List (List (String × ℝ))) :
    List.mapM.loop decodeNumObj
      (vs.map (fun v => JVal.obj (v.map (fun p => (p.1, JVal.num p.2))))) [] =
      some vs :=
  mapM_decodeNumObj vs

lemma loadDat_dumpDat (d : DatFile) : loadDat (dumpDat d) = some d := by
  obtain ⟨vocab, idf, vectors, entries, source⟩ := d
  unfold loadDat dumpDat
  simp [JVal.getField, JVal.asArr, JVal.asStr, JVal.asObj, decodeStrList,
    mapM_asStr, mapM_decodeNumObj, decodeNumObj_roundtrip, mapM_loop_asStr,
    mapM_loop_decodeNumObj]

/-- C6: persisting the index document that vectorize_file builds from a
non-empty entry list and loading it back yields a value equal to the
in-memory structure: same vocab order, same idf values, same vectors, same
entries, same metadata. -/
theorem claim6_roundtrip (entries : List String) (name : String)
    (h : entries ≠ []) :
    loadDat (dumpDat (mkDatFile entries name)) = some (mkDatFile entries name) :=
  loadDat_dumpDat _

/-- Witness for C6 at a concrete one-entry database. -/
theorem claim6_witness :
    (["x"] : List String) ≠ [] ∧
    loadDat (dumpDat (mkDatFile ["x"] "x.txt")) = some (mkDatFile ["x"] "x.txt") :=
  ⟨by decide, claim6_roundtrip ["x"] "x.txt" (by decide)⟩

lemma dotProduct_eq_zero_of_disjoint (v1 v2 : List (String × ℝ))
    (h : ∀ k, k ∈ v1.map Prod.fst → k ∉ v2.map Prod.fst) :
    dotProduct v1 v2 = 0 := by
  unfold dotProduct
  apply List.sum_eq_zero
  intro x hx
  rcases List.mem_map.1 hx with ⟨k, _, rfl⟩
  by_cases h1 : k ∈ v1.map Prod.fst
  · rw [vecGet_eq_zero_of_not_mem (h k h1), mul_zero]
  · rw [vecGet_eq_zero_of_not_mem h1, zero_mul]

lemma cosine_sim_of_dot_zero {v1 v2 : List (String × ℝ)}
    (h : dotProduct v1 v2 = 0) : cosine_sim v1 v2 = 0 := by
  unfold cosine_sim
  split
  · rw [h, zero_div]
  · rfl

lemma idfValue_nonneg (docs : List (List String)) (w : String) :
    0 ≤ idfValue docs w := by
  unfold idfValue
  split
  · next hdf =>
    apply Real.log_nonneg
    rw [one_le_div (by exact_mod_cast Nat.pos_of_ne_zero hdf)]
    exact_mod_cast List.length_filter_le _ _
  · exact le_refl 0

lemma buildDocVector_nonneg (docs : List (List String)) (voc : List String)
    (doc : List String) : ∀ p ∈ buildDocVector docs voc doc, 0 ≤ p.2 := by
  intro p hp
  unfold buildDocVector at hp
  split at hp
  · exact absurd hp (List.not_mem_nil p)
  · rcases List.mem_map.1 hp with ⟨w, _, rfl⟩
    exact mul_nonneg (div_nonneg (Nat.cast_nonneg _) (Nat.cast_nonneg _))
      (idfValue_nonneg docs w)

lemma build_tfidf_idf_nonneg (entries : List String) :
    ∀ p ∈ (build_tfidf entries).idf, 0 ≤ p.2 := by
  intro p hp
  simp only [build_tfidf] at hp
  rcases List.mem_map.1 hp with ⟨w, _, rfl⟩
  exact idfValue_nonneg _ w

lemma buildQueryVec_nonneg (words : List String) (db : DatFile)
    (hidf : ∀ p ∈ db.idf, 0 ≤ p.2) :
    ∀ p ∈ buildQueryVec words db, 0 ≤ p.2 := by
  intro p hp
  unfold buildQueryVec at hp
  rcases List.mem_map.1 hp with ⟨w, _, rfl⟩
  exact mul_nonneg (div_nonneg (Nat.cast_nonneg _) (Nat.cast_nonneg _))
    (vecGet_nonneg hidf w)

/-- C5: on the concrete two-entry source vectorized as database mymod, with
the registry built from the concrete category manifest mapping mymod to 0,
searching for how to add numbers with top_k 1 returns exactly one result,
whose kind, database, module id, operation name, parameter list and signature
are those of the add entry. -/
theorem claim5_end_to_end :
    (searchDat "how to add numbers" "mymod"
        (mkDatFile ["add | Adds two numbers. Parameters: a, b.",
          "print | Prints a value. Parameters: value."] "mymod.txt") 1
        (load_module_id_map "mymod | Example module for tests.\n")).map
      (fun r => (r.kind, r.database, r.module_id, r.op_name, r.params,
        r.signature)) =
    [("op", "mymod", some 0, "add", ["a", "b"], "0.0(a, b)")] := by
  unfold searchDat
  rw [if_neg (show ¬(tokenize "how to add numbers" = []) from by decide)]
  rw [show (mkDatFile ["add | Adds two numbers. Parameters: a, b.",
    "print | Prints a value. Parameters: value."] "mymod.txt") = c5db from rfl]
  rw [show buildQueryVec (tokenize "how to add numbers") c5db = c5qv from rfl]
  rw [show c5db.vectors = [c5v0, c5v1] from rfl]
  rw [show ([c5v0, c5v1] : List (List (String × ℝ))).enum =
    [(0, c5v0), (1, c5v1)] from rfl]
  simp only [List.map_cons, List.map_nil]
  have hs1 : cosine_sim c5qv c5v1 = 0 := by
    apply cosine_sim_of_dot_zero
    apply dotProduct_eq_zero_of_disjoint
    intro k hk1 hk2
    rw [show c5qv.map Prod.fst = ["1", "4"] from by decide] at hk1
    rw [show c5v1.map Prod.fst = ["6", "7", "0", "9", "5"] from by decide] at hk2
    simp only [List.mem_cons, List.not_mem_nil, or_false] at hk1 hk2
    rcases hk1 with rfl | rfl <;> simp at hk2
  have hs0 : (0 : ℝ) ≤ cosine_sim c5qv c5v0 :=
    cosine_sim_nonneg _ _
      (buildQueryVec_nonneg _ _ (build_tfidf_idf_nonneg _))
      (buildDocVector_nonneg _ _ _)
  have hle : cosine_sim c5qv c5v1 ≤ cosine_sim c5qv c5v0 := by
    rw [hs1]
    exact hs0
  rw [show List.insertionSort (fun a b : Nat × ℝ => b.2 ≤ a.2)
      [(0, cosine_sim c5qv c5v0), (1, cosine_sim c5qv c5v1)] =
      [(0, cosine_sim c5qv c5v0), (1, cosine_sim c5qv c5v1)] from by
    simp only [List.insertionSort, List.orderedInsert]
    rw [if_pos hle]]
  rfl

end VCDB
